import Mathlib

/-!
Verification of the sender-tally pipeline of `main.py` (top_senders repository).

The development shallowly embeds the pipeline:
  * `extract_sender_from_message` — sender extraction from message metadata;
  * `get_senders_batch`            — the batched tally loop;
  * `get_all_message_ids`          — the paginated message-id enumerator;
  * `top_senders`                  — the final ranked report.

Python dictionaries/lists occurring in message metadata are embedded by the
inductive `PyVal`; fallible dictionary/attribute access is embedded in the
`Except` monad, mirroring the exceptions the Python code can raise inside its
`try` block.
-/

/-- Embedding of the Python values that message metadata is made of:
strings, lists and string-keyed dictionaries (a dictionary is an
insertion-ordered association list, as in Python 3.7+). -/
inductive PyVal where
  | str : String → PyVal
  | listv : List PyVal → PyVal
  | dict : List (String × PyVal) → PyVal

/-- Embedding of Python subscription `v[k]` for a string key: a `KeyError`
when the key is absent, a `TypeError` when `v` is not a dictionary. -/
def pyGet (v : PyVal) (k : String) : Except String PyVal :=
  match v with
  | PyVal.dict d =>
    match d.find? (fun p => p.1 == k) with
    | some p => Except.ok p.2
    | none => Except.error "KeyError"
  | _ => Except.error "TypeError"

/-- Embedding of Python `v.get(k, dflt)`: the value for `k`, or the default
when absent; an `AttributeError` when `v` is not a dictionary. -/
def pyGetD (v : PyVal) (k : String) (dflt : PyVal) : Except String PyVal :=
  match v with
  | PyVal.dict d =>
    match d.find? (fun p => p.1 == k) with
    | some p => Except.ok p.2
    | none => Except.ok dflt
  | _ => Except.error "AttributeError"

/-- Embedding of Python `v == s` for a string literal `s`: equality of strings;
`False` when `v` is not a string (Python equality across types is `False`,
not an error). -/
def pyEqStr (v : PyVal) (s : String) : Bool :=
  match v with
  | PyVal.str t => t == s
  | _ => false

/-- The whitespace characters removed by Python `str.strip()` (the ASCII
whitespace set; non-ASCII whitespace is outside the modelled alphabet). -/
def pyIsSpace (c : Char) : Bool :=
  c == ' ' || c == '\t' || c == '\n' || c == '\r' || c == '\x0b' || c == '\x0c'

/-- Embedding of Python `str.strip()` on the character list of a string. -/
def pyStripList (l : List Char) : List Char :=
  ((l.dropWhile pyIsSpace).reverse.dropWhile pyIsSpace).reverse

/-- Embedding of Python `str.strip()`. -/
def pyStrip (s : String) : String :=
  String.mk (pyStripList s.toList)

/-- Embedding of Python `str.split(sep)` for a one-character separator, on
character lists: `splitChar c l` is the list of maximal segments of `l`
delimited by `c`; it always has one more element than `l` has occurrences
of `c`. -/
def splitChar (c : Char) : List Char → List (List Char)
  | [] => [[]]
  | x :: xs =>
    match splitChar c xs with
    | [] => [[]]
    | seg :: rest => if x == c then [] :: seg :: rest else (x :: seg) :: rest

/-- Embedding of the value-parsing part of `extract_sender_from_message`
(main.py lines 52–56):
`from_header.split('<')[1].split('>')[0]` when the value contains both
brackets (the `[1]` subscript would raise `IndexError` were it out of range —
kept in the `Except` monad for fidelity), the whole value otherwise, and
`.strip()` on the result. -/
def parseFromValue (s : String) : Except String String :=
  let cs := s.toList
  if cs.contains '<' && cs.contains '>' then
    match splitChar '<' cs with
    | _ :: seg :: _ =>
      Except.ok (String.mk (pyStripList ((splitChar '>' seg).headD [])))
    | _ => Except.error "IndexError"
  else
    Except.ok (String.mk (pyStripList cs))

/-- Embedding of the header loop of `extract_sender_from_message`
(main.py lines 48–57): scan the headers in order; at the first header whose
`'name'` equals `"From"`, parse its `'value'` and return it; `none` when no
header matches. A header that is not a dictionary with the accessed keys, or
a `'value'` that is not a string, raises (in Python, `KeyError`/`TypeError`/
`AttributeError` from the subscripts, the `in` test or `.strip()`; all
non-string values fail one of those, so they are embedded as an error). -/
def findFromHeader : List PyVal → Except String (Option String)
  | [] => Except.ok none
  | h :: rest =>
    match pyGet h "name" with
    | Except.error e => Except.error e
    | Except.ok nameV =>
      if pyEqStr nameV "From" then
        match pyGet h "value" with
        | Except.error e => Except.error e
        | Except.ok (PyVal.str s) =>
          match parseFromValue s with
          | Except.error e => Except.error e
          | Except.ok email => Except.ok (some email)
        | Except.ok _ => Except.error "TypeError"
      else
        findFromHeader rest

/-- Embedding of the body of the `try` block of `extract_sender_from_message`
(main.py lines 47–57): `message_data['payload'].get('headers', [])`, then the
header loop. Iterating a non-list `headers` value is embedded as an error (in
Python every such value either yields no `From` header or raises inside the
loop, so the caller-visible outcome is `None` either way). -/
def extractBody (message_data : PyVal) : Except String (Option String) :=
  match pyGet message_data "payload" with
  | Except.error e => Except.error e
  | Except.ok payload =>
    match pyGetD payload "headers" (PyVal.listv []) with
    | Except.error e => Except.error e
    | Except.ok (PyVal.listv hs) => findFromHeader hs
    | Except.ok _ => Except.error "TypeError"

/-- Embedding of `extract_sender_from_message` (main.py lines 44–60): the
`try` body, with every exception caught and turned into `None`. -/
def extract_sender_from_message (message_data : PyVal) : Option String :=
  match extractBody message_data with
  | Except.ok r => r
  | Except.error _ => none

/-- A well-formed header dictionary `{'name': n, 'value': v}`. -/
def mkHeader (p : String × String) : PyVal :=
  PyVal.dict [("name", PyVal.str p.1), ("value", PyVal.str p.2)]

/-- A well-formed metadata value for a message with the given
(name, value) header pairs, shaped as the Gmail API returns it:
`{'payload': {'headers': [{'name': n, 'value': v}, ...]}}`. -/
def mkMessage (hs : List (String × String)) : PyVal :=
  PyVal.dict [("payload", PyVal.dict [("headers",
    PyVal.listv (hs.map mkHeader))])]

/-- The parsed sender value as a total function: the far side of the
`IndexError` case of `parseFromValue` is unreachable when the value contains
`<` (proved below), so on the reachable inputs this is the same computation. -/
def pySenderValue (v : String) : String :=
  let cs := v.toList
  if cs.contains '<' && cs.contains '>' then
    String.mk (pyStripList ((splitChar '>' ((splitChar '<' cs).getD 1 [])).headD []))
  else
    String.mk (pyStripList cs)

/-- Clean functional restatement of the extractor on well-formed header
lists: the parsed value of the first header named `"From"`, if any. -/
def senderOfHeaders (hs : List (String × String)) : Option String :=
  (hs.find? (fun p => p.1 == "From")).map (fun p => pySenderValue p.2)

/-!
The batched tally pipeline (`get_senders_batch`, main.py lines 62–112).

A run's input is the list of messages to process: pairs of a `MessageId` and
the outcome of fetching that message's metadata — `Except.error ()` embeds a
per-item exception handed to the batch callback, `Except.ok md` the metadata
response. The tally is a `defaultdict(int)`, embedded as an insertion-ordered
association list (existing keys are updated in place, new keys appended),
which is also the iteration order of `sender_counts.items()`.
-/

/-- Embedding of `sender_counts[sender] += 1` on a `defaultdict(int)`:
update the existing entry in place, or append a new entry with count 1. -/
def bump : List (String × Nat) → String → List (String × Nat)
  | [], k => [(k, 1)]
  | p :: t, k => if p.1 == k then (p.1, p.2 + 1) :: t else p :: bump t k

/-- Embedding of the per-response tally step (main.py lines 103–105):
extract the sender and, when it is truthy (non-`None` and non-empty),
increment its count. -/
def tallyOne (t : List (String × Nat)) (md : PyVal) : List (String × Nat) :=
  match extract_sender_from_message md with
  | some s => if s == "" then t else bump t s
  | none => t

/-- Embedding of `batch_results[request_id] = response` on a Python dict:
an existing key keeps its position and gets the new value, a new key is
appended. -/
def dictInsert (d : List (String × PyVal)) (k : String) (v : PyVal) :
    List (String × PyVal) :=
  if d.any (fun p => p.1 == k) then
    d.map (fun p => if p.1 == k then (k, v) else p)
  else
    d ++ [(k, v)]

/-- Embedding of one batch execution (main.py lines 68–99): each request's
callback either records its response in `batch_results` or, on a per-item
exception, records nothing. -/
def buildBatchResults (batch : List (String × Except Unit PyVal)) :
    List (String × PyVal) :=
  batch.foldl (fun d p =>
    match p.2 with
    | Except.ok md => dictInsert d p.1 md
    | Except.error _ => d) []

/-- Embedding of processing one executed batch (main.py lines 102–107):
fold the tally step over `batch_results.items()` in insertion order. -/
def processBatch (t : List (String × Nat))
    (batch : List (String × Except Unit PyVal)) : List (String × Nat) :=
  (buildBatchResults batch).foldl (fun t2 p => tallyOne t2 p.2) t

/-- Splitting a list into consecutive chunks: `budget` is the remaining
capacity of the chunk being collected (in reverse) in `cur`. -/
def chunksAux (budget : Nat) (cur : List α) : List α → List (List α)
  | [] => if cur.isEmpty then [] else [cur.reverse]
  | x :: xs =>
    match budget with
    | 0 => cur.reverse :: chunksAux 9 [x] xs
    | b + 1 => chunksAux b (x :: cur) xs

/-- Embedding of `range(0, len(message_ids), batch_size)` slicing with
`batch_size = 10` (main.py lines 66, 78–79): the list of consecutive
10-element chunks (the last one possibly shorter). -/
def chunks10 (l : List α) : List (List α) :=
  chunksAux 10 [] l

/-- Embedding of `get_senders_batch` (main.py lines 62–112): process the
messages in chunks of 10, executing each batch and folding its results into
the tally. -/
def get_senders_batch (msgs : List (String × Except Unit PyVal)) :
    List (String × Nat) :=
  (chunks10 msgs).foldl processBatch []

/-- One step of the individual retrieval mode: fetch one message and tally
its sender, skipping the message when the fetch failed. -/
def fetchStep (t : List (String × Nat)) (p : String × Except Unit PyVal) :
    List (String × Nat) :=
  match p.2 with
  | Except.ok md => tallyOne t md
  | Except.error _ => t

/-- Modelled from the spec: the individual retrieval mode of §4.3 is not in
`src/main.py` (only the batched mode is; the individual mode exists only in
earlier revisions of the repository). Per the spec: for each MessageId in
enumeration order, fetch its metadata, extract its sender via §4.1 and
increment the tally, a failed fetch being logged and skipped; the tally step
is the one shared with the batched mode. -/
def get_senders_individual (msgs : List (String × Except Unit PyVal)) :
    List (String × Nat) :=
  msgs.foldl fetchStep []

/-- The total number of tallied messages: `sum(tally.values())`. -/
def sumCounts (t : List (String × Nat)) : Nat :=
  (t.map (fun p => p.2)).sum

/-- Whether a message contributes to the tally: its fetch succeeded and its
extracted sender is truthy (non-`None` and non-empty). -/
def countedMsg (p : String × Except Unit PyVal) : Bool :=
  match p.2 with
  | Except.ok md =>
    match extract_sender_from_message md with
    | some s => !(s == "")
    | none => false
  | Except.error _ => false

/-!
The message-id enumerator (`get_all_message_ids`, main.py lines 114–156).

The provider is modelled by the full list `rest` of message ids it still has
to serve, in provider order: a listing request with page size `n` returns the
first `n` of them, together with a continuation token exactly when ids
remain after the page. `acc` is the `message_ids` accumulator of the loop.
-/

/-- Embedding of `min(500, max_messages - len(message_ids) if max_messages
else 500)` (main.py line 123): `max_messages` is falsy when `none` or `0`. -/
def pageSizeFor (max_messages : Option Nat) (accLen : Nat) : Nat :=
  min 500 (match max_messages with
    | some m => if m ≠ 0 then m - accLen else 500
    | none => 500)

/-- Embedding of `max_messages and len(message_ids) >= max_messages`
(main.py line 143). -/
def limitHit (max_messages : Option Nat) (n : Nat) : Bool :=
  match max_messages with
  | some m => m ≠ 0 && decide (n ≥ m)
  | none => false

/-- Embedding of the pagination loop of `get_all_message_ids` (main.py
lines 121–153): request a page; stop on an empty page; extend the
accumulator; on reaching the limit truncate to it and stop; stop when no
continuation token is returned (no ids remain); otherwise continue with the
next page. -/
def get_all_ids_aux (max_messages : Option Nat) (acc rest : List String) :
    List String :=
  if h1 : rest.take (pageSizeFor max_messages acc.length) = [] then
    acc
  else if limitHit max_messages
      (acc.length + (rest.take (pageSizeFor max_messages acc.length)).length) then
    (acc ++ rest.take (pageSizeFor max_messages acc.length)).take
      (max_messages.getD 0)
  else if h2 : rest.drop (rest.take (pageSizeFor max_messages acc.length)).length = [] then
    acc ++ rest.take (pageSizeFor max_messages acc.length)
  else
    get_all_ids_aux max_messages
      (acc ++ rest.take (pageSizeFor max_messages acc.length))
      (rest.drop (rest.take (pageSizeFor max_messages acc.length)).length)
termination_by rest.length
decreasing_by
  simp only [List.length_drop]
  have hpos : 0 < (rest.take (pageSizeFor max_messages acc.length)).length :=
    List.length_pos.mpr h1
  have hle : (rest.take (pageSizeFor max_messages acc.length)).length ≤ rest.length := by
    simp [List.length_take]
  omega

/-- Embedding of `get_all_message_ids` (main.py lines 114–156), over a
provider holding `avail` in provider order. -/
def get_all_message_ids (avail : List String) (max_messages : Option Nat) :
    List String :=
  get_all_ids_aux max_messages [] avail

/-!
The ranked report (`fetch_senders`, main.py lines 179–182):
`sorted(sender_counts.items(), key=lambda x: x[1], reverse=True)[:20]`.
Python's `sorted` is a stable sort; with `reverse=True` it orders by
descending count and keeps equal-count entries in input (tally insertion)
order. It is embedded as the stable descending insertion sort. -/

/-- Stable descending insertion: place `x` before the first entry whose
count does not exceed `x`'s. In `sortDesc`, `x` is inserted into its sorted
tail, whose entries all arrived later than `x`, so on equal counts `x` is
placed before them — the stability order of Python's `sorted`. -/
def insertDesc (x : String × Nat) : List (String × Nat) → List (String × Nat)
  | [] => [x]
  | y :: ys => if y.2 ≤ x.2 then x :: y :: ys else y :: insertDesc x ys

/-- Stable sort by descending count. -/
def sortDesc : List (String × Nat) → List (String × Nat)
  | [] => []
  | x :: xs => insertDesc x (sortDesc xs)

/-- Embedding of the report line (main.py line 180): the tally entries
sorted by descending count (stable) and truncated to the first 20. -/
def top_senders (t : List (String × Nat)) : List (String × Nat) :=
  (sortDesc t).take 20

/-- Rendering of claim C1's wording for the bracketed case, used to compare
the claim against the code: the substring strictly between the first `<` and
the first `>` following it, trimmed; the whole value trimmed otherwise. -/
def claimSenderValue (s : String) : String :=
  let cs := s.toList
  if cs.contains '<' && cs.contains '>' then
    String.mk (pyStripList
      (((cs.dropWhile (fun c => c != '<')).drop 1).takeWhile (fun c => c != '>')))
  else
    String.mk (pyStripList cs)

/-! ### Helper lemmas about the extractor -/

theorem splitChar_ne_nil (c : Char) (l : List Char) : splitChar c l ≠ [] := by
  cases l with
  | nil => simp [splitChar]
  | cons x xs =>
    simp only [splitChar]
    cases h : splitChar c xs with
    | nil => simp
    | cons seg rest =>
      by_cases hx : x == c <;> simp [hx]

theorem splitChar_of_mem {c : Char} {l : List Char} (h : c ∈ l) :
    ∃ a b t, splitChar c l = a :: b :: t := by
  induction l with
  | nil => cases h
  | cons x xs ih =>
    by_cases hx : x = c
    · subst hx
      cases hsp : splitChar x xs with
      | nil => exact absurd hsp (splitChar_ne_nil x xs)
      | cons seg rest =>
        exact ⟨[], seg, rest, by simp [splitChar, hsp]⟩
    · have hmem : c ∈ xs := by
        rcases List.mem_cons.mp h with h2 | h2
        · exact absurd h2.symm hx
        · exact h2
      obtain ⟨a, b, t, habt⟩ := ih hmem
      exact ⟨x :: a, b, t, by simp [splitChar, habt, hx]⟩

theorem parseFromValue_eq (s : String) :
    parseFromValue s = Except.ok (pySenderValue s) := by
  simp only [parseFromValue, pySenderValue]
  by_cases h : s.toList.contains '<' && s.toList.contains '>'
  · rw [if_pos h, if_pos h]
    have hmem : '<' ∈ s.toList := by
      have h1 : s.toList.contains '<' = true := by
        cases h2 : s.toList.contains '<'
        · rw [h2] at h; simp at h
        · rfl
      exact List.elem_iff.mp h1
    obtain ⟨a, b, t, habt⟩ := splitChar_of_mem hmem
    rw [habt]
    simp [List.getD]
  · rw [if_neg h, if_neg h]

theorem findFromHeader_map (hs : List (String × String)) :
    findFromHeader (hs.map mkHeader) =
      Except.ok ((hs.find? (fun p => p.1 == "From")).map
        (fun p => pySenderValue p.2)) := by
  induction hs with
  | nil => rfl
  | cons h rest ih =>
    obtain ⟨n, v⟩ := h
    have hname : pyGet (mkHeader (n, v)) "name" = Except.ok (PyVal.str n) := rfl
    have hvalue : pyGet (mkHeader (n, v)) "value" = Except.ok (PyVal.str v) := rfl
    simp only [List.map_cons, findFromHeader, hname, hvalue, pyEqStr]
    by_cases hn : n == "From"
    · simp [hn, parseFromValue_eq, List.find?]
    · simp [hn, ih, List.find?]

theorem extract_mkMessage (hs : List (String × String)) :
    extract_sender_from_message (mkMessage hs) = senderOfHeaders hs := by
  have hbody : extractBody (mkMessage hs) = findFromHeader (hs.map mkHeader) := rfl
  rw [extract_sender_from_message, hbody, findFromHeader_map]
  rfl

/-! ### Helper lemmas about the batched tally pipeline -/

/-- The entry that one batch request contributes to `batch_results`:
its response, or nothing when the request raised. -/
def okEntry (p : String × Except Unit PyVal) : Option (String × PyVal) :=
  match p.2 with
  | Except.ok md => some (p.1, md)
  | Except.error _ => none

theorem dictInsert_of_not_mem {d : List (String × PyVal)} {k : String}
    (v : PyVal) (h : ∀ p ∈ d, ¬ p.1 = k) : dictInsert d k v = d ++ [(k, v)] := by
  have hany : d.any (fun p => p.1 == k) = false := by
    simp only [List.any_eq_false]
    intro p hp
    simpa using h p hp
  simp [dictInsert, hany]

theorem buildBatchResults_aux (batch : List (String × Except Unit PyVal)) :
    ∀ d : List (String × PyVal),
      (∀ q ∈ d, ¬ q.1 ∈ batch.map (fun p => p.1)) →
      (batch.map (fun p => p.1)).Nodup →
      batch.foldl (fun d2 p =>
        match p.2 with
        | Except.ok md => dictInsert d2 p.1 md
        | Except.error _ => d2) d = d ++ batch.filterMap okEntry := by
  induction batch with
  | nil => intro d _ _; simp
  | cons p rest ih =>
    intro d hd hnd
    have hnd2 : (p.1 :: rest.map (fun p => p.1)).Nodup := by simpa using hnd
    have hnotin : ¬ p.1 ∈ rest.map (fun p => p.1) := (List.nodup_cons.mp hnd2).1
    have hnd' : (rest.map (fun p => p.1)).Nodup := (List.nodup_cons.mp hnd2).2
    cases hp2 : p.2 with
    | ok md =>
      have hins : dictInsert d p.1 md = d ++ [(p.1, md)] := by
        refine dictInsert_of_not_mem md ?_
        intro q hq hq1
        exact hd q hq (by simp [hq1])
      have hd' : ∀ q ∈ d ++ [(p.1, md)], ¬ q.1 ∈ rest.map (fun p => p.1) := by
        intro q hq
        rcases List.mem_append.mp hq with hq2 | hq2
        · intro hmem
          exact hd q hq2 (by simp [hmem])
        · have : q = (p.1, md) := by simpa using hq2
          subst this
          exact hnotin
      simp only [List.foldl_cons, hp2, hins]
      rw [ih (d ++ [(p.1, md)]) hd' hnd']
      simp [okEntry, hp2]
    | error e =>
      have hd' : ∀ q ∈ d, ¬ q.1 ∈ rest.map (fun p => p.1) := by
        intro q hq hmem
        exact hd q hq (by simp [hmem])
      simp only [List.foldl_cons, hp2]
      rw [ih d hd' hnd']
      simp [okEntry, hp2]

theorem buildBatchResults_eq {batch : List (String × Except Unit PyVal)}
    (h : (batch.map (fun p => p.1)).Nodup) :
    buildBatchResults batch = batch.filterMap okEntry := by
  have := buildBatchResults_aux batch [] (by simp) h
  simpa [buildBatchResults] using this

theorem foldl_tally_filterMap (batch : List (String × Except Unit PyVal)) :
    ∀ t : List (String × Nat),
      (batch.filterMap okEntry).foldl (fun t2 p => tallyOne t2 p.2) t =
        batch.foldl fetchStep t := by
  induction batch with
  | nil => intro t; rfl
  | cons p rest ih =>
    intro t
    cases hp2 : p.2 with
    | ok md => simp [okEntry, hp2, ih, fetchStep]
    | error e => simp [okEntry, hp2, ih, fetchStep]

theorem processBatch_eq {batch : List (String × Except Unit PyVal)}
    (h : (batch.map (fun p => p.1)).Nodup) (t : List (String × Nat)) :
    processBatch t batch = batch.foldl fetchStep t := by
  rw [processBatch, buildBatchResults_eq h, foldl_tally_filterMap]

theorem chunksAux_flatten (l : List α) :
    ∀ (k : Nat) (cur : List α),
      (chunksAux k cur l).flatten = cur.reverse ++ l := by
  induction l with
  | nil =>
    intro k cur
    by_cases h : cur.isEmpty <;> simp_all [chunksAux, List.isEmpty_iff]
  | cons x xs ih =>
    intro k cur
    cases k with
    | zero => simp [chunksAux, ih]
    | succ b => simp [chunksAux, ih]

theorem chunks10_flatten (l : List α) : (chunks10 l).flatten = l := by
  simp [chunks10, chunksAux_flatten]

theorem foldl_processBatch_eq (chunks : List (List (String × Except Unit PyVal))) :
    ∀ t, (∀ c ∈ chunks, (c.map (fun p => p.1)).Nodup) →
      chunks.foldl processBatch t = chunks.flatten.foldl fetchStep t := by
  induction chunks with
  | nil => intro t _; rfl
  | cons c cs ih =>
    intro t h
    have hc : (c.map (fun p => p.1)).Nodup := h c (by simp)
    have hcs : ∀ c2 ∈ cs, (c2.map (fun p => p.1)).Nodup := by
      intro c2 hc2; exact h c2 (by simp [hc2])
    simp only [List.foldl_cons, List.flatten_cons, List.foldl_append]
    rw [processBatch_eq hc, ih _ hcs]

/-- The central refinement lemma for the batched pipeline: when the message
ids are pairwise distinct (as provider-assigned `MessageId`s are), the
batched tally is the plain fold of the per-message tally step over the
messages in order — batch boundaries and the `batch_results` dictionary do
not affect the result. -/
theorem get_senders_batch_flatten {msgs : List (String × Except Unit PyVal)}
    (h : (msgs.map (fun p => p.1)).Nodup) :
    get_senders_batch msgs = msgs.foldl fetchStep [] := by
  have hmem : ∀ c ∈ chunks10 msgs, (c.map (fun p => p.1)).Nodup := by
    intro c hc
    have hsub : List.Sublist c msgs := by
      have := List.sublist_flatten_of_mem hc
      rwa [chunks10_flatten] at this
    exact h.sublist (hsub.map (fun p => p.1))
  rw [get_senders_batch, foldl_processBatch_eq _ _ hmem, chunks10_flatten]

theorem sumCounts_bump (t : List (String × Nat)) (k : String) :
    sumCounts (bump t k) = sumCounts t + 1 := by
  induction t with
  | nil => rfl
  | cons p rest ih =>
    by_cases h : p.1 == k
    · simp [bump, h, sumCounts]
      omega
    · simp [bump, h, sumCounts] at ih ⊢
      omega

theorem sumCounts_fetchStep (t : List (String × Nat))
    (p : String × Except Unit PyVal) :
    sumCounts (fetchStep t p) = sumCounts t + (if countedMsg p then 1 else 0) := by
  cases hp2 : p.2 with
  | ok md =>
    cases hex : extract_sender_from_message md with
    | none => simp [fetchStep, tallyOne, countedMsg, hp2, hex]
    | some s =>
      by_cases hs : s == ""
      · simp [fetchStep, tallyOne, countedMsg, hp2, hex, hs]
      · simp [fetchStep, tallyOne, countedMsg, hp2, hex, hs, sumCounts_bump]
  | error e => simp [fetchStep, countedMsg, hp2]

theorem sumCounts_foldl (msgs : List (String × Except Unit PyVal)) :
    ∀ t, sumCounts (msgs.foldl fetchStep t) = sumCounts t + msgs.countP countedMsg := by
  induction msgs with
  | nil => intro t; simp
  | cons p rest ih =>
    intro t
    simp only [List.foldl_cons, ih, sumCounts_fetchStep, List.countP_cons]
    by_cases h : countedMsg p
    · simp [h]
      omega
    · simp [h]

/-! ### Helper lemmas about the enumerator -/

theorem get_all_ids_aux_nolimit {max_messages : Option Nat}
    (hmax : max_messages = none ∨ max_messages = some 0) :
    ∀ (rest acc : List String),
      get_all_ids_aux max_messages acc rest = acc ++ rest := by
  have hps : ∀ aL, pageSizeFor max_messages aL = 500 := by
    intro aL; rcases hmax with h | h <;> simp [pageSizeFor, h]
  have hlh : ∀ n, limitHit max_messages n = false := by
    intro n; rcases hmax with h | h <;> simp [limitHit, h]
  suffices hgen : ∀ (n : Nat) (rest acc : List String), rest.length ≤ n →
      get_all_ids_aux max_messages acc rest = acc ++ rest by
    intro rest acc; exact hgen rest.length rest acc le_rfl
  intro n
  induction n with
  | zero =>
    intro rest acc hlen
    have hnil : rest = [] := List.length_eq_zero.mp (Nat.le_zero.mp hlen)
    subst hnil
    rw [get_all_ids_aux]
    simp
  | succ n ih =>
    intro rest acc hlen
    rw [get_all_ids_aux]
    simp only [hps, hlh]
    split_ifs with h1 hF h2
    · have : rest = [] := by
        rcases List.take_eq_nil_iff.mp h1 with h | h
        · omega
        · exact h
      simp [this]
    · simp at hF
    · have hlen500 : rest.length ≤ (rest.take 500).length := List.drop_eq_nil_iff.mp h2
      have : rest.length ≤ 500 := by
        have := List.length_take 500 rest
        omega
      rw [List.take_of_length_le this]
    · have hpos : 0 < (rest.take 500).length := List.length_pos.mpr h1
      have hlt : (rest.drop (rest.take 500).length).length ≤ n := by
        have h500 := List.length_take 500 rest
        have := List.length_drop (rest.take 500).length rest
        omega
      rw [ih _ _ hlt, List.append_assoc]
      congr 1
      by_cases hc : rest.length ≤ 500
      · rw [List.take_of_length_le hc]
        simp
      · have h500 : (rest.take 500).length = 500 := by
          have := List.length_take 500 rest
          omega
        rw [h500, List.take_append_drop]

theorem get_all_ids_aux_limit (m : Nat) :
    ∀ (rest acc : List String), acc.length < m →
      get_all_ids_aux (some m) acc rest = acc ++ rest.take (m - acc.length) := by
  suffices hgen : ∀ (n : Nat) (rest acc : List String), rest.length ≤ n →
      acc.length < m →
      get_all_ids_aux (some m) acc rest = acc ++ rest.take (m - acc.length) by
    intro rest acc hacc; exact hgen rest.length rest acc le_rfl hacc
  intro n
  induction n with
  | zero =>
    intro rest acc hlen hacc
    have hnil : rest = [] := List.length_eq_zero.mp (Nat.le_zero.mp hlen)
    subst hnil
    rw [get_all_ids_aux]
    simp
  | succ n ih =>
    intro rest acc hlen hacc
    have hm0 : m ≠ 0 := by omega
    have hps : pageSizeFor (some m) acc.length = min 500 (m - acc.length) := by
      simp [pageSizeFor, hm0]
    have hlhit : ∀ nn, limitHit (some m) nn = true ↔ m ≤ nn := by
      intro nn; simp [limitHit, hm0]
    have hklen : (rest.take (min 500 (m - acc.length))).length =
        min (min 500 (m - acc.length)) rest.length :=
      List.length_take _ rest
    have htake : rest.take (rest.take (min 500 (m - acc.length))).length =
        rest.take (min 500 (m - acc.length)) := by
      rw [hklen]
      rcases Nat.le_total (min 500 (m - acc.length)) rest.length with h | h
      · rw [Nat.min_eq_left h]
      · rw [Nat.min_eq_right h, List.take_of_length_le le_rfl,
          List.take_of_length_le h]
    rw [get_all_ids_aux]
    simp only [hps]
    split_ifs with h1 h2 h3
    · have : rest = [] := by
        rcases List.take_eq_nil_iff.mp h1 with h | h
        · omega
        · exact h
      simp [this]
    · -- the limit is reached: the accumulated count equals `m` exactly
      have hge : m ≤ acc.length + (rest.take (min 500 (m - acc.length))).length :=
        (hlhit _).mp h2
      have hkm : (rest.take (min 500 (m - acc.length))).length = m - acc.length := by
        omega
      have hs1 : (acc ++ rest.take (min 500 (m - acc.length))).take
          ((some m).getD 0) = acc ++ rest.take (min 500 (m - acc.length)) := by
        refine List.take_of_length_le ?_
        simp only [List.length_append, Option.getD_some]
        omega
      have hpage : rest.take (min 500 (m - acc.length)) =
          rest.take (m - acc.length) :=
        htake.symm.trans (congrArg (fun z => rest.take z) hkm)
      rw [hs1, hpage]
    · -- provider exhausted after this page: the page is all of `rest`
      have hrle : rest.length ≤ (rest.take (min 500 (m - acc.length))).length :=
        List.drop_eq_nil_iff.mp h3
      have hrlen : rest.length ≤ min 500 (m - acc.length) := by omega
      rw [List.take_of_length_le hrlen, List.take_of_length_le (by omega)]
    · -- loop again on the remaining suffix
      have hrne : rest ≠ [] := by
        intro hr
        exact h1 (by simp [hr])
      have hrpos : 0 < rest.length := List.length_pos.mpr hrne
      have hpspos : 0 < min 500 (m - acc.length) := by omega
      have hnothit : acc.length + (rest.take (min 500 (m - acc.length))).length < m := by
        have hnm : ¬ m ≤ acc.length + (rest.take (min 500 (m - acc.length))).length :=
          fun hc =>
            h2 ((hlhit (acc.length + (rest.take (min 500 (m - acc.length))).length)).mpr hc)
        omega
      have hkpos : 0 < (rest.take (min 500 (m - acc.length))).length :=
        List.length_pos.mpr h1
      have hkle : (rest.take (min 500 (m - acc.length))).length ≤ rest.length :=
        hklen ▸ min_le_right _ _
      have hlt : (rest.drop (rest.take (min 500 (m - acc.length))).length).length ≤ n := by
        have hd := List.length_drop (rest.take (min 500 (m - acc.length))).length rest
        omega
      rw [ih _ _ hlt (by simp only [List.length_append]; omega)]
      rw [List.append_assoc]
      congr 1
      have hsplit : m - acc.length =
          (rest.take (min 500 (m - acc.length))).length +
            (m - (acc ++ rest.take (min 500 (m - acc.length))).length) := by
        simp only [List.length_append]
        omega
      have e1 : rest.take (m - acc.length) =
          rest.take ((rest.take (min 500 (m - acc.length))).length +
            (m - (acc ++ rest.take (min 500 (m - acc.length))).length)) :=
        congrArg (fun z => rest.take z) hsplit
      have e2 : rest.take ((rest.take (min 500 (m - acc.length))).length +
            (m - (acc ++ rest.take (min 500 (m - acc.length))).length)) =
          rest.take (rest.take (min 500 (m - acc.length))).length ++
            (rest.drop (rest.take (min 500 (m - acc.length))).length).take
              (m - (acc ++ rest.take (min 500 (m - acc.length))).length) :=
        List.take_add ..
      rw [e1, e2, htake]

/-- Closed form of the enumerator over the provider model: the provider's
sequence, truncated at the limit when one is in effect (a limit of `0` is
falsy in Python and acts as no limit, as does `none`). -/
theorem get_all_message_ids_spec (avail : List String) (max_messages : Option Nat) :
    get_all_message_ids avail max_messages =
      avail.take (match max_messages with
        | none => avail.length
        | some m => if m = 0 then avail.length else m) := by
  cases max_messages with
  | none =>
    rw [get_all_message_ids, get_all_ids_aux_nolimit (Or.inl rfl)]
    simp
  | some m =>
    by_cases hm : m = 0
    · subst hm
      rw [get_all_message_ids, get_all_ids_aux_nolimit (Or.inr rfl)]
      simp
    · rw [get_all_message_ids,
        get_all_ids_aux_limit m avail [] (by simp [Nat.pos_of_ne_zero hm])]
      simp [hm]

/-! ### Helper lemmas about the ranked report -/

theorem insertDesc_perm (x : String × Nat) (l : List (String × Nat)) :
    (insertDesc x l).Perm (x :: l) := by
  induction l with
  | nil => exact List.Perm.refl _
  | cons y ys ih =>
    by_cases h : y.2 ≤ x.2
    · simp [insertDesc, h]
    · simp only [insertDesc, if_neg h]
      exact (ih.cons y).trans (List.Perm.swap x y ys)

theorem sortDesc_perm (l : List (String × Nat)) : (sortDesc l).Perm l := by
  induction l with
  | nil => exact List.Perm.refl _
  | cons x xs ih =>
    exact (insertDesc_perm x (sortDesc xs)).trans (ih.cons x)

theorem insertDesc_pairwise (x : String × Nat) {l : List (String × Nat)}
    (h : l.Pairwise (fun a b => b.2 ≤ a.2)) :
    (insertDesc x l).Pairwise (fun a b => b.2 ≤ a.2) := by
  induction l with
  | nil => simp [insertDesc]
  | cons y ys ih =>
    obtain ⟨hy, hys⟩ := List.pairwise_cons.mp h
    by_cases hc : y.2 ≤ x.2
    · simp only [insertDesc, if_pos hc]
      refine List.pairwise_cons.mpr ⟨?_, h⟩
      intro z hz
      rcases List.mem_cons.mp hz with hz | hz
      · subst hz; exact hc
      · exact le_trans (hy z hz) hc
    · simp only [insertDesc, if_neg hc]
      refine List.pairwise_cons.mpr ⟨?_, ih hys⟩
      intro z hz
      have hz2 : z ∈ x :: ys := (insertDesc_perm x ys).mem_iff.mp hz
      rcases List.mem_cons.mp hz2 with hz2 | hz2
      · subst hz2; omega
      · exact hy z hz2

theorem sortDesc_pairwise (l : List (String × Nat)) :
    (sortDesc l).Pairwise (fun a b => b.2 ≤ a.2) := by
  induction l with
  | nil => simp [sortDesc]
  | cons x xs ih => exact insertDesc_pairwise x ih

theorem insertDesc_split (x : String × Nat) (l : List (String × Nat)) :
    ∃ l1 l2, l = l1 ++ l2 ∧ insertDesc x l = l1 ++ x :: l2 ∧
      ∀ y ∈ l1, x.2 < y.2 := by
  induction l with
  | nil => exact ⟨[], [], rfl, rfl, by simp⟩
  | cons y ys ih =>
    by_cases hc : y.2 ≤ x.2
    · exact ⟨[], y :: ys, rfl, by simp [insertDesc, hc], by simp⟩
    · obtain ⟨l1, l2, he, hi, hgt⟩ := ih
      refine ⟨y :: l1, l2, by simp [he], by simp [insertDesc, hc, hi], ?_⟩
      intro z hz
      rcases List.mem_cons.mp hz with hz | hz
      · subst hz; omega
      · exact hgt z hz

theorem insertDesc_filter (x : String × Nat) (l : List (String × Nat)) (c : Nat) :
    (insertDesc x l).filter (fun p => p.2 == c) =
      if x.2 == c then x :: l.filter (fun p => p.2 == c)
      else l.filter (fun p => p.2 == c) := by
  obtain ⟨l1, l2, he, hi, hgt⟩ := insertDesc_split x l
  by_cases hx : x.2 == c
  · have hl1 : l1.filter (fun p => p.2 == c) = [] := by
      refine List.filter_eq_nil_iff.mpr ?_
      intro y hy
      have := hgt y hy
      simp only [beq_iff_eq] at hx ⊢
      omega
    rw [hi, if_pos hx, he]
    simp [List.filter_append, hl1, hx]
  · rw [hi, if_neg hx, he]
    simp [List.filter_append, hx]

theorem sortDesc_filter (l : List (String × Nat)) (c : Nat) :
    (sortDesc l).filter (fun p => p.2 == c) = l.filter (fun p => p.2 == c) := by
  induction l with
  | nil => rfl
  | cons x xs ih =>
    rw [sortDesc, insertDesc_filter]
    by_cases hx : x.2 == c
    · simp [hx, ih, List.filter_cons]
    · simp [hx, ih, List.filter_cons]

theorem pyStripList_nil_all {l : List Char} (h : pyStripList l = []) :
    ∀ c ∈ l, pyIsSpace c := by
  intro c hc
  have h2 : (l.dropWhile pyIsSpace).reverse.dropWhile pyIsSpace = [] := by
    rwa [pyStripList, List.reverse_eq_nil_iff] at h
  have h4 : ∀ x ∈ l.dropWhile pyIsSpace, pyIsSpace x := by
    intro x hx
    exact List.dropWhile_eq_nil_iff.mp h2 x (List.mem_reverse.mpr hx)
  have hsplit : c ∈ l.takeWhile pyIsSpace ++ l.dropWhile pyIsSpace := by
    rw [List.takeWhile_append_dropWhile]
    exact hc
  rcases List.mem_append.mp hsplit with h5 | h5
  · exact List.mem_takeWhile_imp h5
  · exact h4 c h5

/-! ### The claims -/

/-- C1, counterexample. For the From value `"a<b<c>d"` the claim's rule — the
substring strictly between the first `<` and the first following `>`, trimmed —
gives `"b<c"`, but the code's `split('<')[1].split('>')[0]` stops at the second
`<` and gives `"b"`: the claim as stated is false on this header list. -/
theorem c1_counterexample_nested_brackets :
    extract_sender_from_message (mkMessage [("From", "a<b<c>d")]) = some "b" ∧
    claimSenderValue "a<b<c>d" = "b<c" ∧
    extract_sender_from_message (mkMessage [("From", "a<b<c>d")]) ≠
      some (claimSenderValue "a<b<c>d") := by
  refine ⟨rfl, rfl, ?_⟩
  decide

/-- C1, amended. For every well-formed message header list, the sender
extractor returns: none when no header named "From" is present; otherwise,
for the first "From" value, when it contains both `<` and `>` the segment
after the first `<` truncated at the next `<` or `>` (whichever comes first,
i.e. Python `split('<')[1].split('>')[0]`), trimmed; otherwise the entire
value trimmed. -/
theorem c1_sender_extraction_amended (hs : List (String × String)) :
    extract_sender_from_message (mkMessage hs) = senderOfHeaders hs :=
  extract_mkMessage hs

/-- C2, counterexample. A message whose From value is `" "` has a non-none
extraction result (the empty string), yet the batched tally does not count
it: the tally total is 0 where the claim demands 1. -/
theorem c2_counterexample_empty_sender :
    (extract_sender_from_message (mkMessage [("From", " ")])).isSome = true ∧
    get_senders_batch [("m1", Except.ok (mkMessage [("From", " ")]))] = [] ∧
    sumCounts (get_senders_batch [("m1", Except.ok (mkMessage [("From", " ")]))]) ≠ 1 := by
  refine ⟨rfl, rfl, ?_⟩
  decide

/-- C2, amended. For every input list of messages with pairwise-distinct ids,
the sum of all tally counts equals the number of messages whose sender
extraction returned a truthy result — non-none AND non-empty; messages whose
fetch failed, whose extraction returned none, or whose extracted sender is
the empty string contribute nothing. -/
theorem c2_tally_sum_amended (msgs : List (String × Except Unit PyVal))
    (h : (msgs.map (fun p => p.1)).Nodup) :
    sumCounts (get_senders_batch msgs) = msgs.countP countedMsg := by
  rw [get_senders_batch_flatten h]
  have h2 := sumCounts_foldl msgs []
  simpa [sumCounts] using h2

/-- C2, witness for the amended theorem: a run with one counted message, one
empty-sender message and one failed fetch tallies exactly one message. -/
theorem c2_tally_sum_amended_witness :
    sumCounts (get_senders_batch
      [("m1", Except.ok (mkMessage [("From", "x@y")])),
       ("m2", Except.ok (mkMessage [("From", " ")])),
       ("m3", Except.error ())]) =
      List.countP countedMsg
        [("m1", Except.ok (mkMessage [("From", "x@y")])),
         ("m2", Except.ok (mkMessage [("From", " ")])),
         ("m3", Except.error ())] :=
  c2_tally_sum_amended _ (by decide)

/-- C3, counterexample. The enumerator called with the explicit limit 0 over
a one-message provider returns one identifier, not at most 0: in the code
`max_messages = 0` is falsy and disables the limit, so the claim as stated —
for every given limit, at most that many identifiers — is false. -/
theorem c3_counterexample_zero_limit :
    get_all_message_ids ["a"] (some 0) = ["a"] ∧
    ¬ (get_all_message_ids ["a"] (some 0)).length ≤ 0 := by
  have h : get_all_message_ids ["a"] (some 0) = ["a"] := by
    rw [get_all_message_ids_spec]
    rfl
  exact ⟨h, by rw [h]; simp⟩

/-- C3, amended. When a positive limit `m` is given, the enumerator returns
`min m avail.length` identifiers — at most `m`, and exactly `m` whenever the
provider holds at least `m`; when no limit is given, and likewise when the
limit is `0` (falsy in Python, treated as no limit), it returns all available
identifiers, until a page is empty or no continuation token comes back. -/
theorem c3_enumerator_limit_amended (avail : List String) (m : Nat) (hm : 0 < m) :
    (get_all_message_ids avail (some m)).length = min m avail.length ∧
    get_all_message_ids avail none = avail ∧
    get_all_message_ids avail (some 0) = avail := by
  refine ⟨?_, ?_, ?_⟩
  · rw [get_all_message_ids_spec]
    simp [Nat.pos_iff_ne_zero.mp hm]
  · rw [get_all_message_ids_spec]
    simp
  · rw [get_all_message_ids_spec]
    simp

/-- C3, witness for the amended theorem at a three-message provider with
limit 2. -/
theorem c3_enumerator_limit_amended_witness :
    (get_all_message_ids ["a", "b", "c"] (some 2)).length =
      min 2 (["a", "b", "c"] : List String).length ∧
    get_all_message_ids ["a", "b", "c"] none = ["a", "b", "c"] ∧
    get_all_message_ids ["a", "b", "c"] (some 0) = ["a", "b", "c"] :=
  c3_enumerator_limit_amended ["a", "b", "c"] 2 (by decide)

/-- C4. For every fixed input list of messages with pairwise-distinct ids and
the same header contents, the batched pipeline (chunks of 10 bundled fetches,
per-chunk result dictionary) and the individual pipeline (one fetch per
MessageId in enumeration order) produce identical tallies. -/
theorem c4_batch_individual_agree (msgs : List (String × Except Unit PyVal))
    (h : (msgs.map (fun p => p.1)).Nodup) :
    get_senders_batch msgs = get_senders_individual msgs :=
  get_senders_batch_flatten h

/-- C4, witness at a three-message input containing a failed fetch. -/
theorem c4_batch_individual_agree_witness :
    get_senders_batch
      [("m1", Except.ok (mkMessage [("From", "x@y")])),
       ("m2", Except.error ()),
       ("m3", Except.ok (mkMessage [("From", "x@y")]))] =
    get_senders_individual
      [("m1", Except.ok (mkMessage [("From", "x@y")])),
       ("m2", Except.error ()),
       ("m3", Except.ok (mkMessage [("From", "x@y")]))] :=
  c4_batch_individual_agree _ (by decide)

/-- C5. For every final tally, the report is the first 20 entries of the
stable descending sort of the tally: it has `min 20 t.length` entries (all of
them when fewer than 20), its counts are non-increasing, the sorted list is a
permutation of the tally, and entries of equal count keep the tally's
insertion order (the sort is stable: filtering the sorted list at any count
value gives exactly the input's entries of that count, in input order). -/
theorem c5_top_senders_report (t : List (String × Nat)) :
    (top_senders t).length = min 20 t.length ∧
    (top_senders t).Pairwise (fun a b => b.2 ≤ a.2) ∧
    (sortDesc t).Perm t ∧
    ∀ c : Nat, (sortDesc t).filter (fun p => p.2 == c) =
      t.filter (fun p => p.2 == c) := by
  refine ⟨?_, ?_, sortDesc_perm t, sortDesc_filter t⟩
  · rw [top_senders, List.length_take, (sortDesc_perm t).length_eq]
  · exact (sortDesc_pairwise t).sublist (List.take_sublist 20 (sortDesc t))

/-- C6. The identifier sequence returned by the enumerator is exactly an
initial segment of the provider's sequence — the concatenation, in request
order, of the pages the provider serves (in the provider model each page is
the next consecutive slice of `avail`), truncated only by the limit: the
enumerator never reorders and never deduplicates identifiers. -/
theorem c6_enumerator_order (avail : List String) (max_messages : Option Nat) :
    get_all_message_ids avail max_messages =
      avail.take (match max_messages with
        | none => avail.length
        | some m => if m = 0 then avail.length else m) :=
  get_all_message_ids_spec avail max_messages

/-- C7. In batched mode, when a single item of the input fails (the provider
hands the callback a per-key error for that MessageId), that item is skipped
and the tally is exactly the tally of the run without it: every other item,
in the same batch included, is still extracted and tallied, and the per-item
failure never fails the batch or the pipeline. -/
theorem c7_batch_item_failure_isolated
    (pre post : List (String × Except Unit PyVal)) (i : String)
    (h : ((pre ++ (i, Except.error ()) :: post).map (fun p => p.1)).Nodup) :
    get_senders_batch (pre ++ (i, Except.error ()) :: post) =
      get_senders_batch (pre ++ post) := by
  have hsub : List.Sublist (pre ++ post) (pre ++ (i, Except.error ()) :: post) :=
    (List.sublist_cons_self (i, Except.error ()) post).append_left pre
  have h2 : ((pre ++ post).map (fun p => p.1)).Nodup :=
    h.sublist (hsub.map (fun p => p.1))
  rw [get_senders_batch_flatten h, get_senders_batch_flatten h2]
  rw [List.foldl_append, List.foldl_append, List.foldl_cons]
  rfl

/-- C7, witness: dropping the failed middle item of a three-message batch
leaves the tally unchanged. -/
theorem c7_batch_item_failure_isolated_witness :
    get_senders_batch
      [("m1", Except.ok (mkMessage [("From", "x@y")])),
       ("m2", Except.error ()),
       ("m3", Except.ok (mkMessage [("From", "z@w")]))] =
    get_senders_batch
      [("m1", Except.ok (mkMessage [("From", "x@y")])),
       ("m3", Except.ok (mkMessage [("From", "z@w")]))] :=
  c7_batch_item_failure_isolated
    [("m1", Except.ok (mkMessage [("From", "x@y")]))]
    [("m3", Except.ok (mkMessage [("From", "z@w")]))]
    "m2" (by decide)

/-- C8. For every message metadata input, whenever the extraction body
raises (missing payload, headers of the wrong shape, non-string values, an
out-of-range subscript), the exception is caught locally and the extractor
returns none to its caller — a malformed message never aborts the pipeline. -/
theorem c8_extractor_catches_errors (md : PyVal) (e : String)
    (h : extractBody md = Except.error e) :
    extract_sender_from_message md = none := by
  rw [extract_sender_from_message, h]

/-- C8, witness: a metadata value with no `payload` key raises `KeyError`
inside the body and the extractor returns none. -/
theorem c8_extractor_catches_errors_witness :
    extract_sender_from_message (PyVal.dict []) = none :=
  c8_extractor_catches_errors (PyVal.dict []) "KeyError" rfl

/-- C9. For every message whose From value strips to the empty string, the
extractor returns `some ""` — a non-none result — yet the batched tally does
not count the message, because only truthy (non-empty) senders are tallied. -/
theorem c9_empty_sender_not_tallied (i v : String) (h : pyStrip v = "") :
    extract_sender_from_message (mkMessage [("From", v)]) = some "" ∧
    get_senders_batch [(i, Except.ok (mkMessage [("From", v)]))] = [] := by
  have hl : pyStripList v.toList = [] := congrArg String.data h
  have hcontains : v.toList.contains '<' = false := by
    cases hcc : v.toList.contains '<' with
    | false => rfl
    | true =>
      have hmem : '<' ∈ v.toList := List.elem_iff.mp hcc
      have := pyStripList_nil_all hl '<' hmem
      simp [pyIsSpace] at this
  have hex : extract_sender_from_message (mkMessage [("From", v)]) = some "" := by
    rw [extract_mkMessage]
    simp only [senderOfHeaders, List.find?]
    have hval : pySenderValue v = "" := by
      rw [pySenderValue]
      simp only [hcontains, Bool.false_and, if_false]
      rw [hl]
      rfl
    simp [hval]
  refine ⟨hex, ?_⟩
  rw [get_senders_batch_flatten (by simp)]
  simp [fetchStep, tallyOne, hex]

/-- C9, witness at the whitespace-only From value `" "`. -/
theorem c9_empty_sender_not_tallied_witness :
    extract_sender_from_message (mkMessage [("From", " ")]) = some "" ∧
    get_senders_batch [("w1", Except.ok (mkMessage [("From", " ")]))] = [] :=
  c9_empty_sender_not_tallied "w1" " " (by decide)

/-- C10. For every header list with a "From" header, the extractor's result
is determined solely by the first "From" header in list order: whatever
follows it — in particular any later "From" headers — is ignored. -/
theorem c10_first_from_header_wins
    (pre post post' : List (String × String)) (v : String)
    (h : ∀ p ∈ pre, ¬ p.1 = "From") :
    extract_sender_from_message (mkMessage (pre ++ ("From", v) :: post)) =
      extract_sender_from_message (mkMessage (pre ++ ("From", v) :: post')) := by
  have hfind : ∀ post0 : List (String × String),
      (pre ++ ("From", v) :: post0).find? (fun p => p.1 == "From") =
        some ("From", v) := by
    intro post0
    rw [List.find?_append]
    have hpre : pre.find? (fun p => p.1 == "From") = none :=
      List.find?_eq_none.mpr (fun x hx => by simpa using h x hx)
    rw [hpre]
    simp [List.find?]
  rw [extract_mkMessage, extract_mkMessage, senderOfHeaders, senderOfHeaders,
    hfind, hfind]

/-- C10, witness: a second "From" header does not change the result. -/
theorem c10_first_from_header_wins_witness :
    extract_sender_from_message
      (mkMessage [("Subject", "Hi"), ("From", "a@b"), ("From", "c@d")]) =
    extract_sender_from_message (mkMessage [("Subject", "Hi"), ("From", "a@b")]) :=
  c10_first_from_header_wins [("Subject", "Hi")] [("From", "c@d")] [] "a@b"
    (by decide)
